import Mathlib

/-!
Shallow embedding of the `lego` population-genetics package (C sources under
`src/`) together with theorems settling the frozen claims about it.

Conventions of the embedding:
* C `double` values are modelled as `ℚ` (exact arithmetic; the claims under
  study are about control flow, ordering and exact comparisons, not about
  floating-point rounding).
* C pointers to parameters (`double *twoN`, `double *start`, ...) are
  modelled as indices (`ℕ`) into a parameter valuation `v : ℕ → ℚ`.
  Pointer comparison in the C source (e.g. `child->end != parent->start`)
  becomes index comparison; dereference `*p` becomes `v p`.
* A NULL pointer is `Option.none`.
* C functions that print a diagnostic and return an error code are modelled
  with `Option`/`Except`-style results; functions that `exit` are modelled
  with an error result as well.
-/

namespace Lego

/-! ### Basic data model (typedefs.h, popnode.h) -/

/-- `tipId_t` is `uint32_t` (typedefs.h), so `MAXSAMP = 8*sizeof(tipId_t) = 32`. -/
def MAXSAMP : ℕ := 8 * 4

/-- Modelled from the spec: `gene.c` is not under `src/`.  Per §4.4 of the
spec, an active lineage ("Gene") carries a TipId (bitmask over sampled
lineages) and an accumulated branch length to the present. -/
structure Gene where
  tid : ℕ
  branch : ℚ
deriving DecidableEq

instance : Inhabited Gene := ⟨⟨0, 0⟩⟩

/-- Modelled from the spec: `gene.c` is not under `src/`.
`Gene_addToBranch` credits branch length `x` to a lineage. -/
def Gene_addToBranch (g : Gene) (x : ℚ) : Gene :=
  { g with branch := g.branch + x }

/-- Modelled from the spec: `gene.c` is not under `src/`.  Per §4.4 and the
coalescent loop of `popnode.c`, `Gene_join` produces the merged lineage whose
TipId is the bitwise union of the two arguments' TipIds; the merged lineage
starts with no accumulated branch length of its own. -/
def Gene_join (a b : Gene) : Gene :=
  ⟨Nat.lor a.tid b.tid, 0⟩

/-- `struct Bounds` (gptree.h, used by `popnode.c` and `lego.c`). -/
structure Bounds where
  lo_twoN : ℚ
  hi_twoN : ℚ
  lo_t : ℚ
  hi_t : ℚ
deriving DecidableEq

/-- `struct PopNode` (popnode.h).  Parameter pointers (`twoN`, `start`,
`end`, `mix`) are indices into the parameter valuation; node pointers
(`parent[2]`, `child[2]`) are indices into the node arena.  The `sample`
array of at most `MAXSAMP` genes is modelled as the list of its first
`nsamples` entries. -/
structure PopNode where
  nparents : ℕ
  nchildren : ℕ
  parent0 : Option ℕ
  parent1 : Option ℕ
  child0 : Option ℕ
  child1 : Option ℕ
  twoN : ℕ
  start : ℕ
  popEnd : Option ℕ
  mix : Option ℕ
  sample : List Gene
deriving DecidableEq

/-! ### C3: partition of replicates among tasks (lego.c, main) -/

/-- The replicate partition of `lego.c` (`main`, lines 111–130): every task
gets `quot = nreps / nTasks` replicates, then each of the first
`rem = nreps mod nTasks` tasks gets one extra. -/
def divideReps (nreps nTasks : ℕ) : List ℕ :=
  let quot := nreps / nTasks
  let rem := nreps % nTasks
  (List.range nTasks).map (fun j => if j < rem then quot + 1 else quot)

lemma divideReps_length (nreps nTasks : ℕ) :
    (divideReps nreps nTasks).length = nTasks := by
  simp [divideReps]

lemma sum_range_map_if (q r : ℕ) :
    ∀ T : ℕ, ((List.range T).map (fun j => if j < r then q + 1 else q)).sum
      = T * q + min r T := by
  intro T
  induction T with
  | zero => simp
  | succ n ih =>
    rw [List.range_succ, List.map_append, List.sum_append, ih]
    by_cases h : n < r
    · have : min r (n + 1) = min r n + 1 := by omega
      simp [h, this]; ring
    · have : min r (n + 1) = min r n := by omega
      simp [h, this]; ring

/-! ### Feasibility check (popnode.c, PopNode_feasible) -/

/-- `*p->start` for a node pointer `p` (0 is junk for NULL; every use in the
source is guarded by the parent/child counts). -/
def startOf (v : ℕ → ℚ) (node : ℕ → PopNode) : Option ℕ → ℚ
  | some k => v (node k).start
  | none => 0

/-- The `mix` range test of `PopNode_feasible`: `*self->mix < 0.0 ||
*self->mix > 1.0` when `self->mix != NULL`. -/
def mixOutOfRange (v : ℕ → ℚ) : Option ℕ → Bool
  | some m => decide (v m < 0) || decide (v m > 1)
  | none => false

/-- `PopNode_feasible` (popnode.c lines 484–557).  Returns `true` iff the
parameters satisfy the inequality constraints: `twoN` within
`[lo_twoN, hi_twoN]`, `start` within `[lo_t, hi_t]`, each parent no younger
than `self`, each child no older than `self`, `mix` in `[0,1]`, and all
children feasible recursively.  The C recursion follows child pointers in an
acyclic graph; the embedding bounds it by `fuel` (running out of fuel yields
`false`, which never happens on a well-formed network when `fuel` is at
least the number of segments). -/
def PopNode_feasible (v : ℕ → ℚ) (node : ℕ → PopNode) (bnd : Bounds) :
    ℕ → ℕ → Bool
  | 0, _ => false
  | fuel + 1, ix =>
    let self := node ix
    if v self.twoN < bnd.lo_twoN ∨ v self.twoN > bnd.hi_twoN then false
    else if v self.start > bnd.hi_t ∨ v self.start < bnd.lo_t then false
    else if self.nparents = 2 ∧ v self.start > startOf v node self.parent1 then
      false
    else if (self.nparents = 2 ∨ self.nparents = 1) ∧
        v self.start > startOf v node self.parent0 then false
    else if self.nchildren = 2 ∧ v self.start < startOf v node self.child1 then
      false
    else if (self.nchildren = 2 ∨ self.nchildren = 1) ∧
        v self.start < startOf v node self.child0 then false
    else if mixOutOfRange v self.mix then false
    else if 1 ≤ self.nchildren ∧
        PopNode_feasible v node bnd fuel (self.child0.getD 0) = false then false
    else if 2 ≤ self.nchildren ∧
        PopNode_feasible v node bnd fuel (self.child1.getD 0) = false then false
    else true

/-- Componentwise containment of bounds: every parameter value allowed by
`b1` is allowed by `b2`. -/
def Bounds.subset (b1 b2 : Bounds) : Prop :=
  b2.lo_twoN ≤ b1.lo_twoN ∧ b1.hi_twoN ≤ b2.hi_twoN ∧
  b2.lo_t ≤ b1.lo_t ∧ b1.hi_t ≤ b2.hi_t

lemma ite_false_eq_true {c : Prop} [Decidable c] {r : Bool} :
    ((if c then false else r) = true) ↔ ¬c ∧ r = true := by
  split <;> simp_all

/-- C5: Feasibility is monotone in the bounds: if the feasibility check
passes under bounds `B1` and `B1` is contained componentwise in `B2`, then
it also passes under `B2` (for the same network, root and fuel). -/
theorem PopNode_feasible_monotone (v : ℕ → ℚ) (node : ℕ → PopNode)
    (b1 b2 : Bounds) (hsub : b1.subset b2) :
    ∀ fuel ix, PopNode_feasible v node b1 fuel ix = true →
      PopNode_feasible v node b2 fuel ix = true := by
  obtain ⟨h1, h2, h3, h4⟩ := hsub
  intro fuel
  induction fuel with
  | zero => intro ix h; simp [PopNode_feasible] at h
  | succ n ih =>
    intro ix h
    rw [PopNode_feasible] at h ⊢
    simp only [ite_false_eq_true] at h ⊢
    obtain ⟨c1, c2, c3, c4, c5, c6, c7, c8, c9, -⟩ := h
    refine ⟨by push_neg at c1 ⊢; constructor <;> [linarith [c1.1]; linarith [c1.2]],
      by push_neg at c2 ⊢; constructor <;> [linarith [c2.1]; linarith [c2.2]],
      c3, c4, c5, c6, c7, ?_, ?_, trivial⟩
    · intro ⟨hn, hfeas⟩
      exact c8 ⟨hn, by
        rcases Bool.eq_false_or_eq_true
            (PopNode_feasible v node b1 n ((node ix).child0.getD 0)) with hb | hb
        · exact absurd (ih _ hb) (by simp [hfeas])
        · exact hb⟩
    · intro ⟨hn, hfeas⟩
      exact c9 ⟨hn, by
        rcases Bool.eq_false_or_eq_true
            (PopNode_feasible v node b1 n ((node ix).child1.getD 0)) with hb | hb
        · exact absurd (ih _ hb) (by simp [hfeas])
        · exact hb⟩

/-- A one-segment demonstration network used to witness the claims that have
hypotheses: a root with `twoN` at parameter index 0 and `start` at index 1. -/
def demoNode : PopNode :=
  ⟨0, 0, none, none, none, none, 0, 1, none, none, []⟩

/-- Parameter valuation for the demonstration network. -/
def demoV : ℕ → ℚ := fun k => if k = 0 then 1 else 0

instance (b1 b2 : Bounds) : Decidable (b1.subset b2) := by
  unfold Bounds.subset; infer_instance

/-- C5 witness: concrete bounds `[0,1]×[0,1] ⊆ [-1,2]×[-1,2]` and a concrete
one-segment network feasible under the smaller bounds, hence (by
monotonicity) under the larger. -/
theorem PopNode_feasible_monotone_witness :
    Bounds.subset ⟨0, 1, 0, 1⟩ ⟨-1, 2, -1, 2⟩ ∧
    PopNode_feasible demoV (fun _ => demoNode) ⟨0, 1, 0, 1⟩ 1 0 = true ∧
    PopNode_feasible demoV (fun _ => demoNode) ⟨-1, 2, -1, 2⟩ 1 0 = true :=
  ⟨by decide, by decide,
    PopNode_feasible_monotone demoV (fun _ => demoNode) ⟨0, 1, 0, 1⟩
      ⟨-1, 2, -1, 2⟩ (by decide) 1 0 (by decide)⟩

/-! ### Edge construction (popnode.c, PopNode_addChild / PopNode_mix) -/

/-- Error codes returned by `PopNode_addChild` and `PopNode_mix`
(declared in error.h; all nonzero). -/
inductive EdgeErr where
  | TOO_MANY_CHILDREN
  | TOO_MANY_PARENTS
  | DATE_MISMATCH
deriving DecidableEq

/-- `parent->child[parent->nchildren] = c; ++parent->nchildren` (guarded by
`nchildren <= 1` at every call site). -/
def linkChildSlot (n : PopNode) (c : ℕ) : PopNode :=
  let n1 := if n.nchildren = 0 then { n with child0 := some c }
            else { n with child1 := some c }
  { n1 with nchildren := n.nchildren + 1 }

/-- `child->parent[child->nparents] = p; ++child->nparents`. -/
def linkParentSlot (n : PopNode) (p : ℕ) : PopNode :=
  let n1 := if n.nparents = 0 then { n with parent0 := some p }
            else { n with parent1 := some p }
  { n1 with nparents := n.nparents + 1 }

/-- `PopNode_addChild` (popnode.c lines 221–257).  `pid`/`cid` are the arena
indices of `parent`/`child` (the C pointers); the result carries the error
code (`none` on success) together with the states of the two nodes when the
function returns.  Note that `child->end != parent->start` in the source is a
comparison of parameter *pointers*, i.e. of indices here. -/
def PopNode_addChild (v : ℕ → ℚ) (pid cid : ℕ) (parent child : PopNode) :
    Option EdgeErr × PopNode × PopNode :=
  if 1 < parent.nchildren then (some .TOO_MANY_CHILDREN, parent, child)
  else if 1 < child.nparents then (some .TOO_MANY_PARENTS, parent, child)
  else if v child.start > v parent.start then (some .DATE_MISMATCH, parent, child)
  else
    match child.popEnd with
    | none =>
      let child1 := { child with popEnd := some parent.start }
      (none, linkChildSlot parent cid, linkParentSlot child1 pid)
    | some e =>
      if e ≠ parent.start then (some .DATE_MISMATCH, parent, child)
      else (none, linkChildSlot parent cid, linkParentSlot child pid)

/-- `PopNode_mix` (popnode.c lines 290–346).  Connects `child` to two
parents: `native` becomes `parent[0]` and `introgressor` becomes
`parent[1]`; `mPtr` is the index of the gene-flow parameter.  All pointer
comparisons of the source are index comparisons here. -/
def PopNode_mix (mPtr : ℕ) (cid iid nid : ℕ)
    (child introgressor native : PopNode) :
    Option EdgeErr × PopNode × PopNode × PopNode :=
  if 1 < introgressor.nchildren then
    (some .TOO_MANY_CHILDREN, child, introgressor, native)
  else if 1 < native.nchildren then
    (some .TOO_MANY_CHILDREN, child, introgressor, native)
  else if 0 < child.nparents then
    (some .TOO_MANY_PARENTS, child, introgressor, native)
  else
    match child.popEnd with
    | some e =>
      if e ≠ introgressor.start then
        (some .DATE_MISMATCH, child, introgressor, native)
      else if e ≠ native.start then
        (some .DATE_MISMATCH, child, introgressor, native)
      else
        let child1 := { child with parent0 := some nid, parent1 := some iid, nparents := 2, mix := some mPtr }
        (none, child1, linkChildSlot introgressor cid, linkChildSlot native cid)
    | none =>
      if native.start ≠ introgressor.start then
        (some .DATE_MISMATCH, child, introgressor, native)
      else
        let child1 := { child with popEnd := some native.start, parent0 := some nid, parent1 := some iid, nparents := 2, mix := some mPtr }
        (none, child1, linkChildSlot introgressor cid, linkChildSlot native cid)

/-- C9: Network edge construction is atomic on error: whenever
`PopNode_addChild` or `PopNode_mix` returns an error code
(`TOO_MANY_CHILDREN`, `TOO_MANY_PARENTS` or `DATE_MISMATCH`), every node
passed in is returned exactly as it was before the call (all parent/child
counts and pointers, the end-time pointer and the mix pointer included). -/
theorem edgeConstruction_atomic (v : ℕ → ℚ) (pid cid iid nid mPtr : ℕ)
    (parent child introgressor native : PopNode) (e : EdgeErr) :
    ((PopNode_addChild v pid cid parent child).1 = some e →
      (PopNode_addChild v pid cid parent child).2 = (parent, child)) ∧
    ((PopNode_mix mPtr cid iid nid child introgressor native).1 = some e →
      (PopNode_mix mPtr cid iid nid child introgressor native).2
        = (child, introgressor, native)) := by
  constructor
  · unfold PopNode_addChild
    split
    · intro _; rfl
    · split
      · intro _; rfl
      · split
        · intro _; rfl
        · split
          · intro h; simp at h
          · split
            · intro _; rfl
            · intro h; simp at h
  · unfold PopNode_mix
    split
    · intro _; rfl
    · split
      · intro _; rfl
      · split
        · intro _; rfl
        · split
          · split
            · intro _; rfl
            · split
              · intro _; rfl
              · intro h; simp at h
          · split
            · intro _; rfl
            · intro h; simp at h

/-- C9 witness: a parent that already has two children makes
`PopNode_addChild` fail with `TOO_MANY_CHILDREN` and leave both nodes
untouched, and a child that already has a parent makes `PopNode_mix` fail
with `TOO_MANY_PARENTS` and leave all three nodes untouched. -/
theorem edgeConstruction_atomic_witness :
    (PopNode_addChild demoV 0 1
        ⟨0, 2, none, none, some 2, some 3, 0, 1, none, none, []⟩ demoNode).2
      = (⟨0, 2, none, none, some 2, some 3, 0, 1, none, none, []⟩, demoNode) ∧
    (PopNode_mix 5 0 1 2
        ⟨1, 0, some 9, none, none, none, 0, 1, none, none, []⟩ demoNode
        demoNode).2
      = (⟨1, 0, some 9, none, none, none, 0, 1, none, none, []⟩, demoNode,
         demoNode) :=
  ⟨(edgeConstruction_atomic demoV 0 1 0 0 5
      ⟨0, 2, none, none, some 2, some 3, 0, 1, none, none, []⟩ demoNode
      demoNode demoNode .TOO_MANY_CHILDREN).1 (by decide),
   (edgeConstruction_atomic demoV 0 0 1 2 5 demoNode
      ⟨1, 0, some 9, none, none, none, 0, 1, none, none, []⟩ demoNode
      demoNode .TOO_MANY_PARENTS).2 (by decide)⟩

/-! ### Sample capacity (popnode.c, PopNode_addSample) -/

/-- `PopNode_addSample` (popnode.c lines 272–283): if the node already holds
`MAXSAMP` samples the program prints a diagnostic and exits (modelled as
`Except.error`); otherwise the gene is stored in the next slot and the
sample count grows by one. -/
def PopNode_addSample (self : PopNode) (gene : Gene) : Except Unit PopNode :=
  if self.sample.length = MAXSAMP then .error ()
  else .ok { self with sample := self.sample ++ [gene] }

/-- C10: a node never holds more than `MAXSAMP = 32` lineages:
`PopNode_addSample` on a node with at most `MAXSAMP` samples errors out
(instead of storing) exactly when the node is full, and otherwise appends
the sample, increments the count by one, and stays within the array. -/
theorem PopNode_addSample_bound (self : PopNode) (gene : Gene)
    (_h : self.sample.length ≤ MAXSAMP) :
    MAXSAMP = 32 ∧
    (self.sample.length = MAXSAMP → PopNode_addSample self gene = .error ()) ∧
    (self.sample.length < MAXSAMP →
      PopNode_addSample self gene
        = .ok { self with sample := self.sample ++ [gene] } ∧
      ∀ self', PopNode_addSample self gene = .ok self' →
        self'.sample.length = self.sample.length + 1 ∧
        self'.sample.length ≤ MAXSAMP) := by
  refine ⟨rfl, fun hfull => by simp [PopNode_addSample, hfull], fun hlt => ?_⟩
  have hne : ¬ self.sample.length = MAXSAMP := by omega
  refine ⟨by simp [PopNode_addSample, hne], fun self' hok => ?_⟩
  simp only [PopNode_addSample, if_neg hne] at hok
  cases hok
  constructor
  · simp
  · simp only [List.length_append, List.length_cons, List.length_nil]
    omega

/-- C10 witness: adding to an empty node succeeds (count 1 ≤ 32), and a full
node with 32 samples is rejected. -/
theorem PopNode_addSample_bound_witness :
    (demoNode.sample.length ≤ MAXSAMP ∧
      PopNode_addSample demoNode ⟨1, 0⟩
        = .ok { demoNode with sample := demoNode.sample ++ [⟨1, 0⟩] }) ∧
    PopNode_addSample { demoNode with sample := List.replicate 32 ⟨0, 0⟩ } ⟨1, 0⟩
      = .error () :=
  ⟨⟨by decide,
    ((PopNode_addSample_bound demoNode ⟨1, 0⟩ (by decide)).2.2 (by decide)).1⟩,
   (PopNode_addSample_bound { demoNode with sample := List.replicate 32 ⟨0, 0⟩ }
      ⟨1, 0⟩ (by decide)).2.1 (by decide)⟩

/-! ### Stage schedule (simsched.c) -/

/-- One `Stage`: `(nOptItr, nSimReps)`. -/
def Stage := ℤ × ℤ
deriving DecidableEq

/-- A `SimSched` is its list of stages (head = current stage); the mutex is
irrelevant to the sequential semantics. -/
def SimSched := List Stage
deriving DecidableEq

/-- `Stage_popHead` (simsched.c lines 65–71): delete the head of the list
and return the new head (`NULL` input gives `NULL`). -/
def Stage_popHead (l : List Stage) : List Stage :=
  match l with
  | [] => []
  | _ :: rest => rest

/-- `SimSched_next` (simsched.c lines 176–196): if the list is `NULL`,
return 1; otherwise pop the head, then return 1 if the list is still
nonempty and 0 if it is now empty.  Result is `(return value, new list)`. -/
def SimSched_next (l : List Stage) : ℤ × List Stage :=
  if l = [] then (1, l)
  else
    let l1 := Stage_popHead l
    if l1 ≠ [] then (1, l1) else (0, l1)

/-- C8 counterexample: on a schedule with no remaining stages, `next()`
returns 1 (true), not 0 (false), even though no stage remains after the
call — refuting "calling next() on a schedule with no remaining stages
returns false". -/
theorem SimSched_next_empty_counterexample :
    SimSched_next [] = (1, []) ∧ (1 : ℤ) ≠ 0 := by
  constructor
  · rfl
  · decide

/-- C8 (amended): on a *nonempty* schedule, `next()` removes the current
head stage and returns 0 (false) exactly when no stage remains after the
call; on an already-empty schedule it returns 1 without advancing. -/
theorem SimSched_next_spec (l : List Stage) (hne : l ≠ []) :
    (SimSched_next l).2 = l.tail ∧
    ((SimSched_next l).1 = 0 ↔ (SimSched_next l).2 = []) := by
  unfold SimSched_next
  rw [if_neg hne]
  cases l with
  | nil => exact absurd rfl hne
  | cons a rest =>
    by_cases hr : rest = []
    · subst hr
      simp [Stage_popHead]
    · simp [Stage_popHead, hr]

/-- C8 witness: a two-stage schedule; `next()` pops to one remaining stage
and returns 1 (there is a stage after the call, so not "false"). -/
theorem SimSched_next_spec_witness :
    ((1, 100) : Stage) :: [((2, 200) : Stage)] ≠ [] ∧
    (SimSched_next (((1, 100) : Stage) :: [((2, 200) : Stage)])).2
      = [((2, 200) : Stage)] ∧
    ((SimSched_next (((1, 100) : Stage) :: [((2, 200) : Stage)])).1 = 0 ↔
      (SimSched_next (((1, 100) : Stage) :: [((2, 200) : Stage)])).2 = []) :=
  ⟨by simp, (SimSched_next_spec _ (by simp)).1, (SimSched_next_spec _ (by simp)).2⟩

/-! ### Job queue (jobqueue.c) -/

/-- The `JobQueue` state relevant to submission order: the `todo` list
(`todo` points at the most recently pushed job; `next` links run toward the
oldest job) and the `acceptingJobs` flag.  Jobs are identified by an opaque
id standing for the C `(jobfun, param)` pair. -/
structure JobQueue where
  todo : List ℕ
  acceptingJobs : Bool
deriving DecidableEq

/-- `JobQueue_addJob` (jobqueue.c lines 152–210): exits the process when the
queue is not accepting jobs (modelled as `none`); otherwise pushes the new
job on the *front* of the `todo` list (`job->next = jq->todo; jq->todo =
job;`). -/
def JobQueue_addJob (jq : JobQueue) (job : ℕ) : Option JobQueue :=
  if jq.acceptingJobs = false then none
  else some { jq with todo := job :: jq.todo }

/-- The dequeue step of `threadfun` (jobqueue.c lines 270–300): take the job
at the head of `todo` (`job = jq->todo; jq->todo = jq->todo->next;`);
`none` when the queue is empty (the worker instead blocks or exits). -/
def threadfun_takeJob (jq : JobQueue) : Option (ℕ × JobQueue) :=
  match jq.todo with
  | [] => none
  | job :: rest => some (job, { jq with todo := rest })

/-- Submit a sequence of jobs in order (no intervening removals). -/
def submitAll (jq : JobQueue) (jobs : List ℕ) : Option JobQueue :=
  match jobs with
  | [] => some jq
  | j :: rest => (JobQueue_addJob jq j).bind (fun jq1 => submitAll jq1 rest)

/-- C4 counterexample: submitting jobs 1 then 2 to an empty accepting queue
and dequeuing yields job 2 — the most recent submission — not job 1, the
earliest-submitted pending job.  The queue is a LIFO stack, not FIFO. -/
theorem jobQueue_fifo_counterexample :
    submitAll ⟨[], true⟩ [1, 2] = some ⟨[2, 1], true⟩ ∧
    threadfun_takeJob ⟨[2, 1], true⟩ = some (2, ⟨[1], true⟩) ∧
    (2 : ℕ) ≠ 1 := by
  refine ⟨rfl, rfl, by decide⟩

lemma submitAll_accepting (jobs : List ℕ) :
    ∀ (jq : JobQueue), jq.acceptingJobs = true →
      submitAll jq jobs = some ⟨jobs.reverse ++ jq.todo, true⟩ := by
  induction jobs with
  | nil => intro jq hacc; cases jq; simp_all [submitAll]
  | cons j rest ih =>
    intro jq hacc
    rw [submitAll, JobQueue_addJob, if_neg (by simp [hacc])]
    rw [Option.some_bind, ih ⟨j :: jq.todo, jq.acceptingJobs⟩ hacc]
    simp

/-- C4 (amended): the job queue is LIFO: for every sequence of job
submissions with no intervening removals, the next job removed from the
queue is the most recently submitted job still pending (jobs are dequeued in
reverse submission order). -/
theorem jobQueue_lifo (jq : JobQueue) (jobs : List ℕ) (j : ℕ) (rest : List ℕ)
    (hacc : jq.acceptingJobs = true) (hjobs : jobs = j :: rest) :
    submitAll jq jobs
      = some ⟨jobs.reverse ++ jq.todo, true⟩ ∧
    threadfun_takeJob ⟨jobs.reverse ++ jq.todo, true⟩
      = some (jobs.getLast (by simp [hjobs]),
          ⟨(jobs.reverse ++ jq.todo).tail, true⟩) := by
  refine ⟨submitAll_accepting jobs jq hacc, ?_⟩
  subst hjobs
  have hne : (j :: rest).reverse ≠ [] := by simp
  obtain ⟨x, xs, hx⟩ := List.exists_cons_of_ne_nil hne
  have hhead : x = (j :: rest).getLast (by simp) := by
    have := List.head?_reverse (j :: rest)
    rw [hx] at this
    simp only [List.head?_cons] at this
    rw [List.getLast?_eq_getLast _ (by simp)] at this
    exact (Option.some_injective _ this.symm).symm
  rw [hx, threadfun_takeJob]
  simp [hhead]

/-- C4 amended-claim witness: concrete run with two submissions. -/
theorem jobQueue_lifo_witness :
    submitAll ⟨[], true⟩ [1, 2] = some ⟨[2, 1], true⟩ ∧
    threadfun_takeJob ⟨[2, 1], true⟩ = some (2, ⟨[1], true⟩) := by
  have h := jobQueue_lifo ⟨[], true⟩ [1, 2] 1 [2] rfl rfl
  exact ⟨h.1, h.2⟩

/-! ### maub winner selection (maub.c, main) -/

/-- The per-row winner loop of `maub.c` (lines 288–305).  For data-set row
`j`, the badness values read from the successive `.bepe` files are folded
with `best_val = -1; winner = -1;` and the update
`if(temp > best_val){ winner = j; best_val = temp; }` — note that the
source compares with `>` and stores the row index `j` (not the file index)
as the winner.  Returns the final `(winner, best_val)`. -/
def maub_rowWinner (j : ℤ) (vals : List ℚ) : ℤ × ℚ :=
  vals.foldl (fun st temp => if temp > st.2 then (j, temp) else st) (-1, -1)

/-- C7: evaluation of the winner-selection code at the failing input.  For
row `j = 0` with badness values `[2, 1]` across two models, the code records
winner `0` with `best_val = 2` — the *highest* badness — although model 1
has the lowest badness (1 < 2); so the recorded winner is not a
lowest-badness model, contradicting the program's own documentation
("the best model (i.e. the one with the lowest badness value)"). -/
theorem maub_rowWinner_bug :
    maub_rowWinner 0 [2, 1] = (0, 2) ∧ (1 : ℚ) < 2 := by
  constructor
  · rfl
  · decide

/-! ### booma model weights (booma.c, main, lines 747–781) -/

/-- The best-model scan of `booma.c` (lines 752–763): for one data-set row,
fold over the models' badness values with state `(jbest, nbest, best)`
starting from `(0, 0, DBL_MAX)` (modelled as `⊤ : WithTop ℚ`):
a strictly smaller badness resets `(jbest := j, nbest := 1, best := badness)`
and an equal badness increments `nbest`. -/
def bestScan : ℕ → List ℚ → ℕ × ℕ × WithTop ℚ → ℕ × ℕ × WithTop ℚ
  | _, [], st => st
  | j, badness :: rest, (jbest, nbest, best) =>
    if (badness : WithTop ℚ) < best then bestScan (j + 1) rest (j, 1, badness)
    else if (badness : WithTop ℚ) = best then
      bestScan (j + 1) rest (jbest, nbest + 1, best)
    else bestScan (j + 1) rest (jbest, nbest, best)

/-- The per-row weight increments of `booma.c` (lines 764–777): with the
scan's `(jbest, nbest, best)`, a unique best model receives weight 1; in a
tie each model from index `jbest` on whose badness equals `best` receives
`1/nbest`. -/
def booma_rowWeights (row : List ℚ) : List ℚ :=
  match bestScan 0 row (0, 0, ⊤) with
  | (jbest, nbest, best) =>
    if nbest = 1 then
      (List.range row.length).map (fun j => if j = jbest then 1 else 0)
    else
      (List.range row.length).map
        (fun j => if jbest ≤ j ∧ (row.getD j 0 : WithTop ℚ) = best
                  then 1 / (nbest : ℚ) else 0)

lemma bestScan_eq (l : List ℚ) : ∀ (j0 jbest nbest : ℕ) (best : WithTop ℚ),
    bestScan j0 l (jbest, nbest, best)
      = if l.minimum < best then
          (j0 + l.findIdx (fun (x : ℚ) => decide ((x : WithTop ℚ) = l.minimum)),
           l.countP (fun (x : ℚ) => decide ((x : WithTop ℚ) = l.minimum)),
           l.minimum)
        else
          (jbest, nbest + l.countP (fun (x : ℚ) => decide ((x : WithTop ℚ) = best)),
           best) := by
  induction l with
  | nil =>
    intro j0 jbest nbest best
    simp [bestScan, List.minimum_nil]
  | cons b rest ih =>
    intro j0 jbest nbest best
    have hmin : (b :: rest).minimum = (b : WithTop ℚ) ⊓ rest.minimum :=
      List.minimum_cons b rest
    rcases lt_trichotomy ((b : WithTop ℚ)) best with hb | hb | hb
    · rw [bestScan, if_pos hb, ih]
      by_cases hr : rest.minimum < (b : WithTop ℚ)
      · have hcons : (b :: rest).minimum = rest.minimum := by
          rw [hmin, inf_eq_right]; exact le_of_lt hr
        have hne : ¬ ((b : WithTop ℚ) = rest.minimum) := (ne_of_gt hr)
        rw [if_pos hr, if_pos (by rw [hcons]; exact lt_trans hr hb)]
        rw [List.findIdx_cons, List.countP_cons, hcons, decide_eq_false hne]
        refine Prod.ext ?_ (Prod.ext ?_ ?_) <;> simp <;> omega
      · have hble : (b : WithTop ℚ) ≤ rest.minimum := le_of_not_lt hr
        have hcons : (b :: rest).minimum = (b : WithTop ℚ) := by
          rw [hmin, inf_eq_left]; exact hble
        rw [if_neg hr, if_pos (by rw [hcons]; exact hb)]
        rw [List.findIdx_cons, List.countP_cons, hcons,
          decide_eq_true (rfl : ((b : WithTop ℚ)) = ((b : WithTop ℚ)))]
        refine Prod.ext ?_ (Prod.ext ?_ ?_) <;> simp <;> omega
    · rw [bestScan, if_neg (by rw [hb]; exact lt_irrefl _), if_pos hb, ih]
      by_cases hr : rest.minimum < best
      · have hcons : (b :: rest).minimum = rest.minimum := by
          rw [hmin, inf_eq_right]; rw [hb]; exact le_of_lt hr
        have hne : ¬ ((b : WithTop ℚ) = rest.minimum) := by
          rw [hb]; exact (ne_of_gt hr)
        rw [if_pos hr, if_pos (by rw [hcons]; exact hr)]
        rw [List.findIdx_cons, List.countP_cons, hcons, decide_eq_false hne]
        refine Prod.ext ?_ (Prod.ext ?_ ?_) <;> simp <;> omega
      · have hcons : (b :: rest).minimum = best := by
          rw [hmin, hb, inf_eq_left]; exact le_of_not_lt hr
        rw [if_neg hr, if_neg (by rw [hcons]; exact lt_irrefl _)]
        rw [List.countP_cons, decide_eq_true hb]
        refine Prod.ext ?_ (Prod.ext ?_ ?_) <;> simp <;> omega
    · rw [bestScan, if_neg (not_lt_of_gt hb), if_neg (ne_of_gt hb), ih]
      by_cases hr : rest.minimum < best
      · have hcons : (b :: rest).minimum = rest.minimum := by
          rw [hmin, inf_eq_right]; exact le_of_lt (lt_trans hr hb)
        have hne : ¬ ((b : WithTop ℚ) = rest.minimum) :=
          (ne_of_gt (lt_trans hr hb))
        rw [if_pos hr, if_pos (by rw [hcons]; exact hr)]
        rw [List.findIdx_cons, List.countP_cons, hcons, decide_eq_false hne]
        refine Prod.ext ?_ (Prod.ext ?_ ?_) <;> simp <;> omega
      · have hcons2 : ¬ ((b :: rest).minimum < best) := by
          rw [hmin, not_lt]
          exact le_inf (le_of_lt hb) (le_of_not_lt hr)
        have hne : ¬ ((b : WithTop ℚ) = best) := ne_of_gt hb
        rw [if_neg hr, if_neg hcons2, List.countP_cons, decide_eq_false hne]
        refine Prod.ext ?_ (Prod.ext ?_ ?_) <;> simp <;> omega

lemma findIdx_le_of_get {p : ℚ → Bool} :
    ∀ (l : List ℚ) (j : ℕ) (hj : j < l.length), p (l.get ⟨j, hj⟩) →
      l.findIdx p ≤ j := by
  intro l
  induction l with
  | nil => intro j hj; simp at hj
  | cons a t ih =>
    intro j hj hp
    rw [List.findIdx_cons]
    cases j with
    | zero =>
      simp only [List.get] at hp
      simp [hp]
    | succ n =>
      cases hpa : p a
      · simp only [cond_false]
        have := ih n (by simpa using hj) (by simpa using hp)
        omega
      · simp

lemma two_le_countP {p : ℚ → Bool} :
    ∀ (l : List ℚ) (i j : ℕ) (hij : i < j) (hj : j < l.length),
      p (l.get ⟨i, lt_trans hij hj⟩) → p (l.get ⟨j, hj⟩) →
        2 ≤ l.countP p := by
  intro l
  induction l with
  | nil => intro i j hij hj; simp at hj
  | cons a t ih =>
    intro i j hij hj hpi hpj
    rw [List.countP_cons]
    cases i with
    | zero =>
      have hpa : p a = true := by simpa using hpi
      cases j with
      | zero => omega
      | succ m =>
        have hm : t.get ⟨m, by simpa using hj⟩ ∈ t := List.get_mem t m _
        have hpos : 0 < t.countP p :=
          (List.countP_pos_iff).2 ⟨_, hm, by simpa using hpj⟩
        rw [if_pos hpa]
        omega
    | succ n =>
      cases j with
      | zero => omega
      | succ m =>
        have := ih n m (by omega) (by simpa using hj)
          (by simpa using hpi) (by simpa using hpj)
        omega

/-- C6: For every data-set row, the set of models receiving weight is
exactly the set of models whose badness equals the row minimum, and each
such model receives `1/nbest` where `nbest` is the number of
minimum-achieving models; no minimum-achieving model is excluded even
though the tie-distribution loop starts at the first tied index. -/
theorem booma_rowWeights_spec (row : List ℚ) (m : ℚ)
    (hmin : row.minimum = (m : WithTop ℚ)) (j : ℕ) (hj : j < row.length) :
    (booma_rowWeights row).getD j 0
      = if row.getD j 0 = m then 1 / (row.count m : ℚ) else 0 := by
  have hne : row ≠ [] := by
    intro h; rw [h, List.minimum_nil] at hmin; exact (WithTop.coe_ne_top hmin.symm)
  set p : ℚ → Bool := fun x => decide ((x : WithTop ℚ) = row.minimum) with hp
  have hscan : bestScan 0 row (0, 0, ⊤)
      = (row.findIdx p, row.countP p, row.minimum) := by
    rw [hp]
    rw [bestScan_eq row 0 0 0 ⊤, if_pos (by rw [hmin]; exact WithTop.coe_lt_top m)]
    simp
  have hcount : row.countP p = row.count m := by
    rw [hp, List.count]
    apply List.countP_congr
    intro x _
    simp [hmin, beq_iff_eq]
  have hmem : m ∈ row := List.minimum_mem hmin
  have hfound : ∃ x ∈ row, p x := ⟨m, hmem, by simp [hp, hmin]⟩
  have hflt : row.findIdx p < row.length := List.findIdx_lt_length_of_exists hfound
  have hpfind : p (row.get ⟨row.findIdx p, hflt⟩) := by
    simpa using List.findIdx_getElem (w := hflt)
  have hgetD : row.getD j 0 = row.get ⟨j, hj⟩ := List.getD_eq_get row 0 hj
  -- findIdx is minimal among indices achieving the row minimum
  have hle : row.getD j 0 = m → row.findIdx p ≤ j := by
    intro hjm
    apply findIdx_le_of_get row j hj
    rw [hp]
    simp only [decide_eq_true_eq]
    rw [← hgetD, hjm, hmin]
  unfold booma_rowWeights
  rw [hscan]
  dsimp only
  by_cases h1 : row.countP p = 1
  · rw [if_pos h1]
    rw [List.getD_eq_get _ _ (by simpa using hj)]
    rw [List.get_map]
    simp only [List.get_range]
    have hiff : j = row.findIdx p ↔ row.getD j 0 = m := by
      constructor
      · intro hjf
        rw [hgetD]
        have : p (row.get ⟨j, hj⟩) := by
          subst hjf; exact hpfind
        rw [hp] at this
        simp only [decide_eq_true_eq, hmin, WithTop.coe_eq_coe] at this
        exact this
      · intro hjm
        by_contra hne2
        have hjge : row.findIdx p ≤ j := hle hjm
        have hlt : row.findIdx p < j := lt_of_le_of_ne hjge (Ne.symm hne2)
        have h2 : 2 ≤ row.countP p := by
          apply two_le_countP row (row.findIdx p) j hlt hj hpfind
          rw [hp]
          simp only [decide_eq_true_eq]
          rw [← hgetD, hjm, hmin]
        omega
    by_cases hjm : row.getD j 0 = m
    · rw [if_pos (hiff.2 hjm), if_pos hjm, ← hcount, h1]
      norm_num
    · rw [if_neg (fun h => hjm (hiff.1 h)), if_neg hjm]
  · rw [if_neg h1]
    rw [List.getD_eq_get _ _ (by simpa using hj)]
    rw [List.get_map]
    simp only [List.get_range]
    have hiff : (row.findIdx p ≤ j ∧ (row.getD j 0 : WithTop ℚ) = row.minimum)
        ↔ row.getD j 0 = m := by
      constructor
      · intro ⟨_, hq⟩
        rw [hmin, WithTop.coe_eq_coe] at hq
        exact hq
      · intro hjm
        exact ⟨hle hjm, by rw [hjm, hmin]⟩
    by_cases hjm : row.getD j 0 = m
    · rw [if_pos (hiff.2 hjm), if_pos hjm, hcount]
    · rw [if_neg (fun h => hjm (hiff.1 h)), if_neg hjm]

/-- C6 witness: row `[3, 1, 1]` — models 1 and 2 tie for the minimum 1 and
each receives 1/2; model 0 receives 0. -/
theorem booma_rowWeights_spec_witness :
    ([(3 : ℚ), 1, 1].minimum = ((1 : ℚ) : WithTop ℚ) ∧ (0 : ℕ) < 3) ∧
    ((booma_rowWeights [3, 1, 1]).getD 0 0
       = (if [(3 : ℚ), 1, 1].getD 0 0 = 1 then 1 / (([(3 : ℚ), 1, 1].count 1 : ℕ) : ℚ) else 0) ∧
     (booma_rowWeights [3, 1, 1]).getD 1 0
       = (if [(3 : ℚ), 1, 1].getD 1 0 = 1 then 1 / (([(3 : ℚ), 1, 1].count 1 : ℕ) : ℚ) else 0)) :=
  ⟨⟨by decide, by decide⟩,
   booma_rowWeights_spec [3, 1, 1] 1 (by decide) 0 (by decide),
   booma_rowWeights_spec [3, 1, 1] 1 (by decide) 1 (by decide)⟩

/-! ### Coalescent loop (popnode.c, PopNode_coalesce, lines 365–476) -/

/-- The mean handed to `gsl_ran_exponential`: `2.0 * *self->twoN / (n*(n-1))`
(popnode.c line 399); the denominator is computed in integer arithmetic. -/
def coalesceMean (twoN : ℚ) (n : ℕ) : ℚ :=
  2 * twoN / ((n * (n - 1) : ℕ) : ℚ)

/-- `y < end` where `end` is `HUGE_VAL` when `self->end == NULL`
(popnode.c line 368): any finite value is below an unbounded end. -/
def beforeEnd (y : ℚ) : Option ℚ → Bool
  | none => true
  | some e => decide (y < e)

/-- The random-pair selection of the coalescent loop (popnode.c lines
409–419): `i0` is uniform on `[0, n)`, `j0` uniform on `[0, n-1)`; then
`if (j0 >= i0) ++j0` and the pair is sorted so the result `(i, j)` has
`i < j`. -/
def pairSel (i0 j0 : ℕ) : ℕ × ℕ :=
  let j1 := if j0 ≥ i0 then j0 + 1 else j0
  if j1 < i0 then (j1, i0) else (i0, j1)

/-- One iteration of the coalescent `while` loop of `PopNode_coalesce`
(popnode.c lines 396–436), entered with `nsamples > 1 && t < end`.  The
random draws are passed in: `draw` maps the mean to the exponential deviate
`x = gsl_ran_exponential(rng, mean)`, and `i0`, `j0` are the two uniform
integer draws.  If `t + x < end` a coalescent event occurs: every lineage is
credited `x`, the sorted pair `(i, j)` is selected, lineage `i` is joined
with lineage `j`, and lineage `j` is removed by moving the last lineage into
slot `j` and shrinking the count.  Otherwise every lineage is credited
`end - t` and time advances to `end`.  Returns `(t', samples')`. -/
def PopNode_coalesceStep (twoN : ℚ) (popEnd : Option ℚ) (t : ℚ)
    (sample : List Gene) (draw : ℚ → ℚ) (i0 j0 : ℕ) : ℚ × List Gene :=
  let n := sample.length
  let mean := coalesceMean twoN n
  let x := draw mean
  if beforeEnd (t + x) popEnd then
    let credited := sample.map (fun g => Gene_addToBranch g x)
    let ij := pairSel i0 j0
    let i := ij.1
    let j := ij.2
    let joined := credited.set i
      (Gene_join (credited.getD i default) (credited.getD j default))
    let removed := if j = n - 1 then joined.take (n - 1)
                   else (joined.set j (joined.getD (n - 1) default)).take (n - 1)
    (t + x, removed)
  else
    let e := popEnd.getD 0
    (e, sample.map (fun g => Gene_addToBranch g (e - t)))

lemma pairSel_bounds (i0 j0 k : ℕ) (hk : 2 ≤ k) (hi0 : i0 < k)
    (hj0 : j0 < k - 1) :
    (pairSel i0 j0).1 < (pairSel i0 j0).2 ∧ (pairSel i0 j0).2 < k := by
  simp only [pairSel]
  split_ifs <;> constructor <;> simp <;> omega

lemma pairSel_iff (i0 j0 a b : ℕ) (hab : a < b) :
    pairSel i0 j0 = (a, b) ↔ (i0 = a ∧ j0 = b - 1) ∨ (i0 = b ∧ j0 = a) := by
  simp only [pairSel, Prod.mk.injEq]
  split_ifs <;> simp only [Prod.mk.injEq] <;> omega

/-- Removing index `j` by overwriting it with the last element and dropping
the last slot (the C idiom `sample[j] = sample[n-1]` after `--nsamples`)
produces a permutation of `eraseIdx l j`. -/
lemma take_set_perm_eraseIdx {α : Type} [Inhabited α] (l : List α) (j : ℕ)
    (hj : j < l.length) :
    List.Perm (if j = l.length - 1 then l.take (l.length - 1)
               else (l.set j (l.getD (l.length - 1) default)).take (l.length - 1))
      (l.eraseIdx j) := by
  by_cases hlast : j = l.length - 1
  · rw [if_pos hlast, List.eraseIdx_eq_take_drop_succ, hlast]
    have hnil : l.drop (l.length - 1 + 1) = [] := by
      apply List.drop_eq_nil_of_le; omega
    rw [hnil, List.append_nil]
  · rw [if_neg hlast]
    have hjlt : j < l.length - 1 := by omega
    have hn1 : l.length - 1 < l.length := by omega
    have hc : l.getD (l.length - 1) default = l[l.length - 1] :=
      List.getD_eq_getElem l default hn1
    rw [hc, List.set_eq_take_cons_drop _ hj, List.take_append_eq_append_take]
    have htj : (l.take j).length = j := by simp; omega
    rw [htj, List.take_take]
    have hminj : min (l.length - 1) j = j := by omega
    rw [hminj]
    have hsucc : l.length - 1 - j = (l.length - 2 - j) + 1 := by omega
    rw [hsucc, List.take_succ_cons]
    rw [List.eraseIdx_eq_take_drop_succ]
    apply List.Perm.append_left
    -- `l[l.length-1] :: (l.drop (j+1)).take (l.length-2-j)`  permutes to
    -- `l.drop (j+1)`
    have hDlen : (l.drop (j + 1)).length = l.length - (j + 1) := by simp
    have hsplit : l.drop (j + 1)
        = (l.drop (j + 1)).take (l.length - 2 - j)
          ++ (l.drop (j + 1)).drop (l.length - 2 - j) :=
      (List.take_append_drop _ _).symm
    have hlastix : l.length - 2 - j < (l.drop (j + 1)).length := by omega
    have hdropone : (l.drop (j + 1)).drop (l.length - 2 - j)
        = (l.drop (j + 1))[l.length - 2 - j] :: (l.drop (j + 1)).drop (l.length - 2 - j + 1) :=
      List.drop_eq_getElem_cons hlastix
    have hdropnil : (l.drop (j + 1)).drop (l.length - 2 - j + 1) = [] := by
      apply List.drop_eq_nil_of_le; omega
    have hval : (l.drop (j + 1))[l.length - 2 - j] = l[l.length - 1] := by
      rw [List.getElem_drop]
      have : j + 1 + (l.length - 2 - j) = l.length - 1 := by omega
      simp only [this]
    conv_rhs => rw [hsplit, hdropone, hdropnil, hval]
    exact (List.perm_append_singleton _ _).symm

lemma take_set_length {α : Type} [Inhabited α] (l : List α) (j : ℕ)
    (hj : j < l.length) :
    (if j = l.length - 1 then l.take (l.length - 1)
     else (l.set j (l.getD (l.length - 1) default)).take (l.length - 1)).length
      = l.length - 1 := by
  split <;> simp <;> omega

lemma take_set_getD {α : Type} [Inhabited α] (l : List α) (c : α) (i j : ℕ)
    (hij : i < j) (hj : j < l.length) :
    (if j = l.length - 1 then l.take (l.length - 1)
     else (l.set j c).take (l.length - 1)).getD i default
      = l.getD i default := by
  have hi : i < l.length - 1 := by omega
  have hilen : i < l.length := by omega
  split
  · rw [List.getD_eq_getElem _ _ (by simp; omega),
      List.getD_eq_getElem _ _ hilen]
    rw [List.getElem_take]
  · rw [List.getD_eq_getElem _ _ (by simp; omega),
      List.getD_eq_getElem _ _ hilen]
    rw [List.getElem_take, List.getElem_set_ne (by omega)]

/-- C2: one iteration of the per-segment coalescent loop, for a state with
`k ≥ 2` active lineages and time `t` below the segment end.  The waiting
time is the exponential deviate drawn with mean `2·twoN/(k·(k−1))`
(`x = draw (coalesceMean twoN k)`).  (a) If `t + x` reaches or exceeds the
(finite) end time, every lineage is credited `end − t` and time advances to
`end`.  (b) Otherwise time advances to `t + x`, every lineage is credited
`x`, the selected indices satisfy `i < j < k`, lineage `i` is replaced by
the TipId-union join of lineages `i` and `j`, lineage `j` is removed (the
result is a permutation of the credited list with slot `i` joined and slot
`j` erased) and the lineage count drops by exactly one.  (c) The sorted
pair is uniform: every pair `a < b` arises from exactly the two raw draws
`(a, b−1)` and `(b, a)` out of the `k·(k−1)` equally likely draws. -/
theorem PopNode_coalesceStep_spec (twoN t : ℚ) (popEnd : Option ℚ)
    (sample : List Gene) (draw : ℚ → ℚ) (i0 j0 : ℕ) (x : ℚ) (i j : ℕ)
    (credited : List Gene)
    (hk : 2 ≤ sample.length)
    (ht : beforeEnd t popEnd = true)
    (hi0 : i0 < sample.length)
    (hj0 : j0 < sample.length - 1)
    (hx : x = draw (coalesceMean twoN sample.length))
    (hij : (i, j) = pairSel i0 j0)
    (hcr : credited = sample.map (fun g => Gene_addToBranch g x)) :
    (∀ e, popEnd = some e → e ≤ t + x →
      PopNode_coalesceStep twoN popEnd t sample draw i0 j0
        = (e, sample.map (fun g => Gene_addToBranch g (e - t)))) ∧
    (beforeEnd (t + x) popEnd = true →
      i < j ∧ j < sample.length ∧
      (PopNode_coalesceStep twoN popEnd t sample draw i0 j0).1 = t + x ∧
      (PopNode_coalesceStep twoN popEnd t sample draw i0 j0).2.length
        = sample.length - 1 ∧
      List.Perm (PopNode_coalesceStep twoN popEnd t sample draw i0 j0).2
        ((credited.set i (Gene_join (credited.getD i default)
            (credited.getD j default))).eraseIdx j) ∧
      (PopNode_coalesceStep twoN popEnd t sample draw i0 j0).2.getD i default
        = Gene_join (credited.getD i default) (credited.getD j default)) ∧
    (∀ a b, a < b → b < sample.length →
      (pairSel i0 j0 = (a, b) ↔ (i0 = a ∧ j0 = b - 1) ∨ (i0 = b ∧ j0 = a))) := by
  have hbounds := pairSel_bounds i0 j0 sample.length hk hi0 hj0
  rw [← hij] at hbounds
  obtain ⟨hij_lt, hj_lt⟩ := hbounds
  refine ⟨?_, ?_, fun a b hab _ => pairSel_iff i0 j0 a b hab⟩
  · intro e he hle
    rw [he]
    simp only [PopNode_coalesceStep, ← hx]
    rw [if_neg (by simp [beforeEnd]; linarith)]
    simp
  · intro hcond
    have hcrlen : credited.length = sample.length := by rw [hcr]; simp
    set gj := Gene_join (credited.getD i default) (credited.getD j default)
      with hgj
    set J := credited.set i gj with hJ
    have hJlen : J.length = sample.length := by rw [hJ]; simp [hcrlen]
    have hjJ : j < J.length := by omega
    have hiJ : i < J.length := by omega
    have hstep : PopNode_coalesceStep twoN popEnd t sample draw i0 j0
        = (t + x,
           if j = sample.length - 1 then J.take (sample.length - 1)
           else (J.set j (J.getD (sample.length - 1) default)).take
             (sample.length - 1)) := by
      simp only [PopNode_coalesceStep, ← hx, ← hij]
      rw [if_pos hcond]
      simp only [← hcr, ← hgj, ← hJ]
    refine ⟨hij_lt, hj_lt, ?_, ?_, ?_, ?_⟩
    · rw [hstep]
    · rw [hstep]
      have hlen := take_set_length J j hjJ
      rw [hJlen] at hlen
      exact hlen
    · rw [hstep]
      have hperm := take_set_perm_eraseIdx J j hjJ
      rw [hJlen] at hperm
      exact hperm
    · rw [hstep]
      have hget := take_set_getD J (J.getD (sample.length - 1) default) i j
        hij_lt hjJ
      rw [hJlen] at hget
      rw [hget, hJ]
      rw [List.getD_eq_getElem _ _
          (by rw [List.length_set]; omega : i < (credited.set i gj).length),
        List.getElem_set_self (by rw [List.length_set] at hiJ ⊢ <;> omega)]

/-- C2 witness: three lineages with TipIds 1, 2, 4, `twoN = 1`,
segment end 10, `t = 0`, exponential draw 1 (so a coalescent event occurs),
uniform draws `i0 = 0`, `j0 = 1`, selecting the pair `(0, 2)`: every
lineage is credited 1, lineage 0 becomes the TipId-union join `1 | 4 = 5`,
lineage 2 is removed, and the count drops from 3 to 2. -/
theorem PopNode_coalesceStep_spec_witness :
    (2 ≤ ([(⟨1, 0⟩ : Gene), ⟨2, 0⟩, ⟨4, 0⟩] : List Gene).length) ∧
    beforeEnd ((0 : ℚ) + 1) (some 10) = true ∧
    (PopNode_coalesceStep 1 (some 10) 0 [⟨1, 0⟩, ⟨2, 0⟩, ⟨4, 0⟩]
        (fun _ => 1) 0 1).1 = 0 + 1 ∧
    (PopNode_coalesceStep 1 (some 10) 0 [⟨1, 0⟩, ⟨2, 0⟩, ⟨4, 0⟩]
        (fun _ => 1) 0 1).2.length
      = ([(⟨1, 0⟩ : Gene), ⟨2, 0⟩, ⟨4, 0⟩] : List Gene).length - 1 ∧
    (PopNode_coalesceStep 1 (some 10) 0 [⟨1, 0⟩, ⟨2, 0⟩, ⟨4, 0⟩]
        (fun _ => 1) 0 1).2.getD 0 default
      = Gene_join (([(⟨1, 1⟩ : Gene), ⟨2, 1⟩, ⟨4, 1⟩] : List Gene).getD 0 default)
          (([(⟨1, 1⟩ : Gene), ⟨2, 1⟩, ⟨4, 1⟩] : List Gene).getD 2 default) := by
  have h := PopNode_coalesceStep_spec 1 0 (some 10)
    [⟨1, 0⟩, ⟨2, 0⟩, ⟨4, 0⟩] (fun _ => 1) 0 1 1 0 2
    [⟨1, 1⟩, ⟨2, 1⟩, ⟨4, 1⟩]
    (by decide) (by simp [beforeEnd]) (by decide) (by decide) rfl
    (by decide) (by simp [Gene_addToBranch])
  have hc := h.2.1 (by simp [beforeEnd])
  exact ⟨by decide, by simp [beforeEnd], hc.2.2.1, hc.2.2.2.1,
    hc.2.2.2.2.2⟩

/-! ### Cost function (cost.c, costFun; gptree.c) -/

/-- A pattern table: TipId keys with accumulated weights (branchtab.c is not
under `src/`; this is the interface shape the spec gives in §4.1). -/
def BranchTab := List (ℕ × ℚ)
deriving DecidableEq

/-- `struct GPTree` (gptree.c): the segment arena with its root, the
parameter store (valuation plus the indices of the free parameters) and the
bounds.  `nseg` is the number of segments, which also bounds the feasibility
recursion. -/
structure GPTree where
  nseg : ℕ
  node : ℕ → PopNode
  rootPop : ℕ
  params : ℕ → ℚ
  freeNdx : List ℕ
  bnd : Bounds

/-- Modelled from the spec: `parstore.c` is not under `src/`.
`ParStore_setFreeParams` writes the components of `x` into the free
parameters, leaving all other parameters unchanged. -/
def ParStore_setFreeParams (params : ℕ → ℚ) (freeNdx : List ℕ)
    (x : List ℚ) : ℕ → ℚ :=
  fun k => ((freeNdx.zip x).lookup k).getD (params k)

/-- `GPTree_setParams` (gptree.c lines 43–46). -/
def GPTree_setParams (g : GPTree) (x : List ℚ) : GPTree :=
  { g with params := ParStore_setFreeParams g.params g.freeNdx x }

/-- `GPTree_feasible` (gptree.c lines 262–264): feasibility of the whole
network from the root. -/
def GPTree_feasible (g : GPTree) : Bool :=
  PopNode_feasible g.params g.node g.bnd g.nseg g.rootPop

/-- Modelled from the spec: `branchtab.c` is not under `src/`.
`BranchTab_divideBy` divides every entry by `c` (spec §4.1). -/
def BranchTab_divideBy (tab : BranchTab) (c : ℚ) : BranchTab :=
  tab.map (fun kv => (kv.1, kv.2 / c))

/-- Modelled from the spec: `branchtab.c` is not under `src/`.
`BranchTab_normalize` divides every entry by the sum of entries
(spec §4.1). -/
def BranchTab_normalize (tab : BranchTab) : BranchTab :=
  BranchTab_divideBy tab ((tab.map (fun kv => kv.2)).sum)

/-- The cost value: `HUGE_VAL` (`+∞`) or a finite value. -/
inductive CostVal where
  | inf
  | val (c : ℚ)
deriving DecidableEq

/-- Observable outcome of one `costFun` call: the returned cost, how many
replicate simulation jobs were dispatched, and the simulated pattern table
if one was built. -/
structure CostOutcome where
  cost : CostVal
  jobsDispatched : ℕ
  simTable : Option BranchTab
deriving DecidableEq

/-- `costFun` (cost.c lines 29–57, compiled with `COST == KL_COST` per
typedefs.h): set the free parameters, check feasibility and return
`HUGE_VAL` before any simulation if the check fails; otherwise run
`patprob`, divide by the replicate count, normalize, and score with the KL
divergence against the observed table.  `patprobFn` stands for `patprob`
(patprob.c is not under `src/`), returning the accumulated table and the
number of replicate jobs it dispatched; `klFn` stands for
`BranchTab_KLdiverg` (branchtab.c is not under `src/`). -/
def costFun (g : GPTree) (x : List ℚ) (nreps : ℚ) (obs : BranchTab)
    (patprobFn : GPTree → BranchTab × ℕ)
    (klFn : BranchTab → BranchTab → ℚ) : CostOutcome :=
  let g1 := GPTree_setParams g x
  if GPTree_feasible g1 = false then ⟨.inf, 0, none⟩
  else
    let pr := patprobFn g1
    let prob := BranchTab_normalize (BranchTab_divideBy pr.1 nreps)
    ⟨.val (klFn obs prob), pr.2, some prob⟩

/-- C1: for every parameter vector `x`, if after setting the free
parameters the network fails the feasibility check, `costFun` returns
exactly `+∞`, dispatches no replicate jobs, and never builds the simulated
pattern table — whatever the simulation and kernel implementations are. -/
theorem costFun_infeasible (g : GPTree) (x : List ℚ) (nreps : ℚ)
    (obs : BranchTab) (patprobFn : GPTree → BranchTab × ℕ)
    (klFn : BranchTab → BranchTab → ℚ)
    (h : GPTree_feasible (GPTree_setParams g x) = false) :
    costFun g x nreps obs patprobFn klFn
      = ⟨CostVal.inf, 0, none⟩ := by
  unfold costFun
  rw [if_pos h]

/-- C1 witness: a one-segment network whose `twoN` is set to 5 by the
parameter vector, violating the bound `hi_twoN = 1`; `costFun` returns the
infinite-cost outcome with zero jobs and no table. -/
theorem costFun_infeasible_witness :
    GPTree_feasible
      (GPTree_setParams ⟨1, fun _ => demoNode, 0, demoV, [0], ⟨0, 1, 0, 1⟩⟩ [5])
      = false ∧
    costFun ⟨1, fun _ => demoNode, 0, demoV, [0], ⟨0, 1, 0, 1⟩⟩ [5] 100 []
        (fun _ => ([(3, 1)], 7)) (fun _ _ => 0)
      = ⟨CostVal.inf, 0, none⟩ :=
  ⟨by decide,
   costFun_infeasible ⟨1, fun _ => demoNode, 0, demoV, [0], ⟨0, 1, 0, 1⟩⟩ [5]
     100 [] (fun _ => ([(3, 1)], 7)) (fun _ _ => 0) (by decide)⟩

/-- C3: For every replicate count R ≥ 1 and task count T with 1 ≤ T ≤ R, the
driver's partition gives task j (0-based) `⌊R/T⌋ + 1` replicates when
`j < R mod T` and `⌊R/T⌋` otherwise; every task receives at least one
replicate and the per-task counts sum to exactly R. -/
theorem divideReps_partition (R T : ℕ) (hT : 1 ≤ T) (hTR : T ≤ R) :
    (divideReps R T).length = T ∧
    (∀ j, (hj : j < T) →
      (divideReps R T).get ⟨j, by simpa [divideReps_length] using hj⟩
        = (if j < R % T then R / T + 1 else R / T)) ∧
    (∀ c ∈ divideReps R T, 1 ≤ c) ∧
    (divideReps R T).sum = R := by
  refine ⟨divideReps_length R T, ?_, ?_, ?_⟩
  · intro j hj
    simp [divideReps]
  · intro c hc
    have hquot : 1 ≤ R / T := (Nat.one_le_div_iff (by omega)).2 hTR
    simp only [divideReps, List.mem_map, List.mem_range] at hc
    obtain ⟨j, _, rfl⟩ := hc
    split <;> omega
  · have hmod : R % T < T := Nat.mod_lt _ (by omega)
    have := sum_range_map_if (R / T) (R % T) T
    simp only [divideReps]
    rw [this]
    have : min (R % T) T = R % T := by omega
    rw [this]
    exact Nat.div_add_mod R T

/-- C3 witness: concrete instance R = 7, T = 3 (tasks get 3, 2, 2). -/
theorem divideReps_partition_witness :
    (1 ≤ 3 ∧ 3 ≤ 7) ∧
    ((divideReps 7 3).length = 3 ∧
     (∀ j, (hj : j < 3) →
       (divideReps 7 3).get ⟨j, by simpa [divideReps_length] using hj⟩
         = (if j < 7 % 3 then 7 / 3 + 1 else 7 / 3)) ∧
     (∀ c ∈ divideReps 7 3, 1 ≤ c) ∧
     (divideReps 7 3).sum = 7) :=
  ⟨⟨by decide, by decide⟩, divideReps_partition 7 3 (by decide) (by decide)⟩

end Lego
